import Mathlib

/-!
Verification of the `deleteUnusedRecords` NetSuite scheduled script
(`unusedRecordCleaner.js`): a shallow embedding of the Model / View /
Controller objects of the script and proofs of the specified control-flow
contract.

The script's remote API calls (`query.runSuiteQL.promise`,
`record.delete.promise`, `record.create/setValue/save.promise`,
`translation.get`) are modelled by an `Env` structure giving the outcome of
each call; the observable side effects (log lines, committed deletions,
committed audit rows) accumulate in a `Trace` that every embedded function
threads explicitly.  Fallible code returns `Except String α`, the `String`
being the rejection's message (`e.message` in the source).
-/

namespace UnusedRecordCleaner

/-- A candidate row `{ id, name }` as produced by the SuiteQL fetch. -/
structure Candidate where
  id : String
  name : String
deriving DecidableEq, Repr

/-- Severity of a log line: the script only uses `log.audit` and `log.error`. -/
inductive LogLevel where
  | audit
  | error
deriving DecidableEq, Repr

/-- One structured log line `{ title, details }` written through `N/log`. -/
structure LogLine where
  level : LogLevel
  title : String
  details : String
deriving DecidableEq, Repr

/-- A committed row of the `customrecord_deletion_audit` table: the id returned
by `save.promise()` together with the fields set on the record handle before
the save (`fieldId ↦ value`, in the order the `setValue` calls happened). -/
structure AuditRow where
  savedId : String
  fields : List (String × String)
deriving DecidableEq, Repr

/-- Events used to observe intermediate points of a run: a delete that has
succeeded (the `record.delete.promise` call settled successfully), and an
audit-record creation that has been started (`createAuditRecord` entered,
i.e. `record.create.promise` issued). -/
inductive Event where
  | deleteOk (id : String)
  | auditStart (id : String)
deriving DecidableEq, Repr

/-- Accumulated observable effects of a run. -/
structure Trace where
  logs : List LogLine
  deletes : List String
  audits : List AuditRow
  events : List Event
deriving DecidableEq, Repr

/-- The empty trace a run starts from. -/
def Trace.empty : Trace := ⟨[], [], [], []⟩

/-- Outcomes of the remote calls the script performs.  `fetchResult` is the
settled result of `query.runSuiteQL.promise` (`.ok rows` giving
`asMappedResults()`); `deleteOutcome c` is `none` when
`record.delete.promise` for `c.id` succeeds and `some msg` when it rejects
with message `msg`; `auditOutcome c` is the combined outcome of the
`record.create.promise` / two `setValue.promise` / `save.promise` sequence
for `c` (`.ok savedId` when every step succeeds and the save returns
`savedId`, `.error msg` when the first rejecting step rejects with `msg`);
`translation key` is `translation.get({collection: 'unusedRecordCleaner',
key})`, `none` when the lookup is absent. -/
structure Env where
  fetchResult : Except String (List Candidate)
  deleteOutcome : Candidate → Option String
  auditOutcome : Candidate → Except String String
  translation : String → Option String

/-- JavaScript `a || b` on an optional string: the fallback is used when the
lookup is absent (`undefined`) or falsy (the empty string). -/
def jsOr (a : Option String) (b : String) : String :=
  match a with
  | none => b
  | some s => if s = "" then b else s

/-- The SuiteQL text issued by `fetchUnusedRecords` (kept verbatim for the
store-level model of claim C8). -/
def suiteQL : String :=
  "SELECT id, name FROM customrecord_mycustomrecord WHERE id NOT IN " ++
  "(SELECT DISTINCT customRecordRef FROM referencingTable WHERE customRecordRef IS NOT NULL)"

/-- Embeds `UnusedRecordModel.fetchUnusedRecords`: runs the SuiteQL query; on
success pushes `{id, name}` for each mapped row into a fresh array (the
`results && length > 0` guard skipping the loop on an empty result set) and
resolves with it; on rejection logs one error-level line titled with the
localized `query_error` message (fallback `'Error fetching unused
records.'`) and the rejection's message as details, and re-throws. -/
def fetchUnusedRecords (env : Env) (tr : Trace) :
    Except String (List Candidate) × Trace :=
  match env.fetchResult with
  | Except.ok results =>
      let recordsArr : List Candidate :=
        if results.length > 0 then
          results.foldl (fun acc row => acc ++ [{ id := row.id, name := row.name }]) []
        else []
      (Except.ok recordsArr, tr)
  | Except.error e =>
      let errorMsg := jsOr (env.translation ("query_error")) "Error fetching unused records."
      (Except.error e,
        { tr with logs := tr.logs ++ [⟨LogLevel.error, errorMsg, e⟩] })

/-- Embeds `UnusedRecordModel.hasDependencies`: stub, always resolves with `false`. -/
def hasDependencies (_candidate : Candidate) : Bool :=
  false

/-- Embeds `UnusedRecordModel.deleteRecord`: issues `record.delete.promise` for the
candidate's id; on success the deletion is committed and one audit-level
line `Record Deleted` / `Record ID: <id>` is logged; on rejection one
error-level line titled with the localized `delete_error` message (fallback
`'Error deleting record.'`) is logged and the error is re-thrown. -/
def deleteRecord (env : Env) (recordData : Candidate) (tr : Trace) :
    Except String Unit × Trace :=
  match env.deleteOutcome recordData with
  | none =>
      (Except.ok (),
        { tr with
            deletes := tr.deletes ++ [recordData.id]
            events := tr.events ++ [Event.deleteOk recordData.id]
            logs := tr.logs ++
              [⟨LogLevel.audit, "Record Deleted", "Record ID: " ++ recordData.id⟩] })
  | some msg =>
      let errorMsg := jsOr (env.translation ("delete_error")) "Error deleting record."
      (Except.error msg,
        { tr with logs := tr.logs ++ [⟨LogLevel.error, errorMsg, msg⟩] })

/-- Embeds `UnusedRecordModel.createAuditRecord`: creates a new
`customrecord_deletion_audit` record handle, sets the two fields
`custrecord_deleted_record_id` and `custrecord_deleted_record_name` from the
deleted record, saves it, and logs one audit-level line containing the saved
audit row's id and the deleted record's id; on any rejection in that
sequence it logs one error-level line titled with the localized
`audit_error` message (fallback `'Error creating audit record.'`) and
re-throws.  Entering the function starts the audit creation
(`Event.auditStart`); the row is committed only when the save succeeds. -/
def createAuditRecord (env : Env) (recordData : Candidate) (tr : Trace) :
    Except String Unit × Trace :=
  let tr := { tr with events := tr.events ++ [Event.auditStart recordData.id] }
  match env.auditOutcome recordData with
  | Except.ok savedId =>
      let fields0 : List (String × String) := []
      let fields1 := fields0 ++ [("custrecord_deleted_record_id", recordData.id)]
      let fields2 := fields1 ++ [("custrecord_deleted_record_name", recordData.name)]
      (Except.ok (),
        { tr with
            audits := tr.audits ++ [⟨savedId, fields2⟩]
            logs := tr.logs ++
              [⟨LogLevel.audit, "Audit Record Created",
                "Audit Record ID: " ++ savedId ++ ", Deleted Record ID: " ++ recordData.id⟩] })
  | Except.error msg =>
      let errorMsg := jsOr (env.translation ("audit_error")) "Error creating audit record."
      (Except.error msg,
        { tr with logs := tr.logs ++ [⟨LogLevel.error, errorMsg, msg⟩] })

/-- Embeds `UnusedRecordView.logNoRecordsFound`: the single audit-level line written
on the zero-row path. -/
def logNoRecordsFound : LogLine :=
  ⟨LogLevel.audit, "No Unused Records", "No unused records found for deletion."⟩

/-- Embeds `UnusedRecordView.logCompletion`: the audit-level summary line written
after a fully successful loop. -/
def logCompletion (count : Nat) : LogLine :=
  ⟨LogLevel.audit, "Unused Record Cleanup Complete",
    "Total records deleted: " ++ toString count⟩

/-- The `for (const candidate of candidates)` loop of
`UnusedRecordController.cleanupUnusedRecords`: for each candidate checks
`hasDependencies` (skipping the candidate when it reports dependencies),
otherwise deletes, increments `deleteCount` and creates the audit record;
the first rejection aborts the loop and propagates. -/
def cleanupLoop (env : Env) (candidates : List Candidate) (deleteCount : Nat)
    (tr : Trace) : Except String Unit × Nat × Trace :=
  match candidates with
  | [] => (Except.ok (), deleteCount, tr)
  | candidate :: rest =>
      let hasDeps := hasDependencies candidate
      if hasDeps then
        cleanupLoop env rest deleteCount tr
      else
        match deleteRecord env candidate tr with
        | (Except.error msg, tr1) => (Except.error msg, deleteCount, tr1)
        | (Except.ok _, tr1) =>
            let deleteCount := deleteCount + 1
            match createAuditRecord env candidate tr1 with
            | (Except.error msg, tr2) => (Except.error msg, deleteCount, tr2)
            | (Except.ok _, tr2) => cleanupLoop env rest deleteCount tr2

/-- Embeds `UnusedRecordController.cleanupUnusedRecords`: fetches the candidates,
takes the zero-row path when the array is empty (the array is never null),
otherwise runs the loop and, only when it completes without error, logs the
completion summary with the final `deleteCount`. -/
def cleanupUnusedRecords (env : Env) : Except String Unit × Trace :=
  let deleteCount := 0
  match fetchUnusedRecords env Trace.empty with
  | (Except.error msg, tr) => (Except.error msg, tr)
  | (Except.ok candidates, tr) =>
      if candidates.length = 0 then
        (Except.ok (), { tr with logs := tr.logs ++ [logNoRecordsFound] })
      else
        match cleanupLoop env candidates deleteCount tr with
        | (Except.error msg, _, tr1) => (Except.error msg, tr1)
        | (Except.ok _, finalCount, tr1) =>
            (Except.ok (), { tr1 with logs := tr1.logs ++ [logCompletion finalCount] })

/-- The scheduled-script entry point `execute`: awaits
`UnusedRecordController.cleanupUnusedRecords()` (`run()` in the spec). -/
def execute (env : Env) : Except String Unit × Trace :=
  cleanupUnusedRecords env

/-! ### Derived descriptions of the per-candidate effects -/

/-- The audit-level line `deleteRecord` logs after a successful deletion. -/
def recordDeletedLog (c : Candidate) : LogLine :=
  ⟨LogLevel.audit, "Record Deleted", "Record ID: " ++ c.id⟩

/-- The two fields `createAuditRecord` sets on the new audit record. -/
def auditFields (c : Candidate) : List (String × String) :=
  [("custrecord_deleted_record_id", c.id), ("custrecord_deleted_record_name", c.name)]

/-- The id `save.promise()` returns for `c`'s audit record when the audit
creation succeeds (unspecified placeholder otherwise). -/
def savedIdOf (env : Env) (c : Candidate) : String :=
  match env.auditOutcome c with
  | Except.ok s => s
  | Except.error _ => ""

/-- The audit row committed for candidate `c` on a successful audit creation. -/
def auditRowOf (env : Env) (c : Candidate) : AuditRow :=
  ⟨savedIdOf env c, auditFields c⟩

/-- The audit-level line `createAuditRecord` logs on success for `c`. -/
def auditCreatedLog (env : Env) (c : Candidate) : LogLine :=
  ⟨LogLevel.audit, "Audit Record Created",
    "Audit Record ID: " ++ savedIdOf env c ++ ", Deleted Record ID: " ++ c.id⟩

/-- The two log lines a fully successful iteration of the loop writes for `c`,
in order: the deletion log, then the audit-creation log. -/
def successLogs (env : Env) (c : Candidate) : List LogLine :=
  [recordDeletedLog c, auditCreatedLog env c]

/-- The two events a fully processed candidate contributes, in order: its
delete succeeds, then its audit creation starts. -/
def eventBlock (c : Candidate) : List Event :=
  [Event.deleteOk c.id, Event.auditStart c.id]

/-- Candidate `c`'s remote calls all succeed: the delete settles successfully
and the whole audit-creation sequence resolves with some saved id. -/
def candidateOk (env : Env) (c : Candidate) : Prop :=
  env.deleteOutcome c = none ∧ ∃ s, env.auditOutcome c = Except.ok s

/-- The trace after one fully successful loop iteration for candidate `c`:
the deletion and audit-creation logs, the committed delete, the committed
audit row and the two events are appended. -/
def successStep (env : Env) (c : Candidate) (tr : Trace) : Trace :=
  ⟨tr.logs ++ successLogs env c,
   tr.deletes ++ [c.id],
   tr.audits ++ [auditRowOf env c],
   tr.events ++ eventBlock c⟩

/-- The orchestration loop with the eligibility check (the skip branch)
removed; claim C7 states the real loop never takes the skip branch, i.e.
agrees with this one. -/
def cleanupLoopNoSkip (env : Env) (candidates : List Candidate) (deleteCount : Nat)
    (tr : Trace) : Except String Unit × Nat × Trace :=
  match candidates with
  | [] => (Except.ok (), deleteCount, tr)
  | candidate :: rest =>
      match deleteRecord env candidate tr with
      | (Except.error msg, tr1) => (Except.error msg, deleteCount, tr1)
      | (Except.ok _, tr1) =>
          let deleteCount := deleteCount + 1
          match createAuditRecord env candidate tr1 with
          | (Except.error msg, tr2) => (Except.error msg, deleteCount, tr2)
          | (Except.ok _, tr2) => cleanupLoopNoSkip env rest deleteCount tr2

/-- Tests for a successful-delete event. -/
def isDeleteOkEvent : Event → Bool
  | Event.deleteOk _ => true
  | Event.auditStart _ => false

/-- Tests for an audit-creation-started event. -/
def isAuditStartEvent : Event → Bool
  | Event.deleteOk _ => false
  | Event.auditStart _ => true

/-- Number of successful deletes among the events. -/
def okDeletes (es : List Event) : Nat :=
  es.countP isDeleteOkEvent

/-- Number of audit-record creations started among the events. -/
def startedAudits (es : List Event) : Nat :=
  es.countP isAuditStartEvent

/-! ### A model of the external store (claim C8) -/

/-- The external record store as claim C8 models it: the
`customrecord_mycustomrecord` rows, the non-null-able `customRecordRef`
column of `referencingTable`, and the `customrecord_deletion_audit` rows. -/
structure Store where
  candidateTable : List Candidate
  referencingRefs : List (Option String)
  auditTable : List AuditRow
deriving DecidableEq, Repr

/-- The rows the `suiteQL` query selects from a store: the candidate rows
whose id is not among the non-null `customRecordRef` values (the `NOT IN`
anti-join). -/
def queryUnused (s : Store) : List Candidate :=
  s.candidateTable.filter (fun r => !(decide (some r.id ∈ s.referencingRefs)))

/-- The environment a run sees over store `s`: the fetch resolves with the
query's rows and every delete and audit call succeeds. -/
def storeEnv (s : Store) : Env :=
  { fetchResult := Except.ok (queryUnused s)
    deleteOutcome := fun _ => none
    auditOutcome := fun c => Except.ok ("A" ++ c.id)
    translation := fun _ => none }

/-- One run of the job against store `s`: the committed deletes remove those
rows from the candidate table and the committed audit rows are appended to
the audit table; the run's own outcome and trace are returned alongside. -/
def runOnStore (s : Store) : Store × Except String Unit × Trace :=
  let out := execute (storeEnv s)
  ({ s with
      candidateTable := s.candidateTable.filter (fun r => !(decide (r.id ∈ out.2.deletes)))
      auditTable := s.auditTable ++ out.2.audits },
   out)

/-! ### Concrete environments for the spec's test scenarios -/

/-- The spec's two-record scenario: candidates `100` / `200`, every remote
call succeeds, every localization lookup absent. -/
def envTwoRecords : Env :=
  { fetchResult := Except.ok [⟨"100", "TestRecord A"⟩, ⟨"200", "TestRecord B"⟩]
    deleteOutcome := fun _ => none
    auditOutcome := fun c => Except.ok ("A" ++ c.id)
    translation := fun _ => none }

/-- The zero-row scenario: the query resolves with no rows. -/
def envNoRecords : Env :=
  { fetchResult := Except.ok []
    deleteOutcome := fun _ => none
    auditOutcome := fun c => Except.ok ("A" ++ c.id)
    translation := fun _ => none }

/-- The query-failure scenario: the query rejects with `Query failed`. -/
def envQueryFail : Env :=
  { fetchResult := Except.error ("Query failed")
    deleteOutcome := fun _ => none
    auditOutcome := fun c => Except.ok ("A" ++ c.id)
    translation := fun _ => none }

/-- The delete-failure scenario: one candidate `300`, its delete rejects with
`Delete failed`. -/
def envDeleteFail : Env :=
  { fetchResult := Except.ok [⟨"300", "TestRecord C"⟩]
    deleteOutcome := fun _ => some ("Delete failed")
    auditOutcome := fun c => Except.ok ("A" ++ c.id)
    translation := fun _ => none }

/-- The audit-failure scenario: one candidate `400`, the delete succeeds and
the audit creation rejects with `Create audit record failed`. -/
def envAuditFail : Env :=
  { fetchResult := Except.ok [⟨"400", "TestRecord D"⟩]
    deleteOutcome := fun _ => none
    auditOutcome := fun _ => Except.error ("Create audit record failed")
    translation := fun _ => none }

/-- A mixed scenario for the fail-fast claim: candidate `100` fully succeeds
and candidate `300`'s delete rejects. -/
def envMixedFail : Env :=
  { fetchResult := Except.ok [⟨"100", "TestRecord A"⟩, ⟨"300", "TestRecord C"⟩]
    deleteOutcome := fun c => if c.id = "300" then some ("Delete failed") else none
    auditOutcome := fun c => Except.ok ("A" ++ c.id)
    translation := fun _ => none }

/-! ### Basic lemmas about the embedded operations -/

theorem foldl_push_eq (l : List Candidate) (acc : List Candidate) :
    l.foldl (fun acc row => acc ++ [{ id := row.id, name := row.name }]) acc = acc ++ l := by
  induction l generalizing acc with
  | nil => simp
  | cons c rest ih => simpa using ih (acc ++ [c])

theorem fetchUnusedRecords_ok {env : Env} {cs : List Candidate}
    (h : env.fetchResult = Except.ok cs) (tr : Trace) :
    fetchUnusedRecords env tr = (Except.ok cs, tr) := by
  cases cs with
  | nil => simp [fetchUnusedRecords, h]
  | cons c rest => simp [fetchUnusedRecords, h, foldl_push_eq]

theorem cleanupLoop_all_ok {env : Env} (cs : List Candidate)
    (h : ∀ c ∈ cs, candidateOk env c) (n : Nat) (tr : Trace) :
    cleanupLoop env cs n tr =
      (Except.ok (), n + cs.length,
        ⟨tr.logs ++ cs.flatMap (successLogs env),
         tr.deletes ++ cs.map (·.id),
         tr.audits ++ cs.map (auditRowOf env),
         tr.events ++ cs.flatMap eventBlock⟩) := by
  induction cs generalizing n tr with
  | nil => simp [cleanupLoop]
  | cons c rest ih =>
      obtain ⟨hdel, s, haud⟩ := h c (by simp)
      have hrest : ∀ x ∈ rest, candidateOk env x := fun x hx => h x (by simp [hx])
      simp only [cleanupLoop, hasDependencies, Bool.false_eq_true, if_false,
        deleteRecord, hdel, createAuditRecord, haud]
      rw [ih hrest]
      simp [successLogs, recordDeletedLog, auditCreatedLog, auditRowOf, savedIdOf, haud,
        auditFields, eventBlock, List.append_assoc]
      omega

theorem execute_all_ok {env : Env} {cs : List Candidate}
    (hfetch : env.fetchResult = Except.ok cs) (hne : cs ≠ [])
    (hok : ∀ c ∈ cs, candidateOk env c) :
    execute env =
      (Except.ok (),
        ⟨cs.flatMap (successLogs env) ++ [logCompletion cs.length],
         cs.map (·.id), cs.map (auditRowOf env), cs.flatMap eventBlock⟩) := by
  have hlen : ¬ cs.length = 0 := by simpa [List.length_eq_zero] using hne
  simp only [execute, cleanupUnusedRecords, fetchUnusedRecords_ok hfetch, if_neg hlen,
    cleanupLoop_all_ok cs hok 0 Trace.empty]
  simp [Trace.empty]

theorem execute_noRecords {env : Env} (hfetch : env.fetchResult = Except.ok []) :
    execute env = (Except.ok (), ⟨[logNoRecordsFound], [], [], []⟩) := by
  simp [execute, cleanupUnusedRecords, fetchUnusedRecords_ok hfetch, Trace.empty]

theorem countP_completion_successLogs (env : Env) (cs : List Candidate) :
    (cs.flatMap (successLogs env)).countP
      (fun l => l.title == "Unused Record Cleanup Complete") = 0 := by
  induction cs with
  | nil => simp
  | cons c rest ih => simp [successLogs, recordDeletedLog, auditCreatedLog, ih]

/-! ### The claims -/

/-- C1: for every fetch result of `N ≥ 1` candidates where every remote call
succeeds (the eligibility stub reports no dependencies for every candidate),
`run()` resolves and its trace is exactly: for each candidate in fetch order a
committed delete followed by a committed audit row (with the matching pair of
audit-level logs and events), so exactly `N` deletes and `N` audit creations,
followed by exactly one final log line titled
`Unused Record Cleanup Complete` with details `Total records deleted: N`. -/
theorem spec_c1_successful_batch (env : Env) (cs : List Candidate)
    (hfetch : env.fetchResult = Except.ok cs) (hne : cs ≠ [])
    (hok : ∀ c ∈ cs, candidateOk env c) :
    execute env =
      (Except.ok (),
        ⟨cs.flatMap (successLogs env) ++ [logCompletion cs.length],
         cs.map (·.id), cs.map (auditRowOf env), cs.flatMap eventBlock⟩) ∧
    (execute env).2.logs.countP
      (fun l => l.title == "Unused Record Cleanup Complete") = 1 ∧
    (execute env).2.logs.getLast? = some (logCompletion cs.length) ∧
    (execute env).2.deletes.length = cs.length ∧
    (execute env).2.audits.length = cs.length := by
  have he := execute_all_ok hfetch hne hok
  refine ⟨he, ?_, ?_, ?_, ?_⟩ <;> rw [he]
  · simp [countP_completion_successLogs, logCompletion]
  · simp
  · simp
  · simp

/-- Witness for C1 at the spec's two-record scenario. -/
theorem spec_c1_witness :
    (execute envTwoRecords).2.logs.countP
      (fun l => l.title == "Unused Record Cleanup Complete") = 1 :=
  (spec_c1_successful_batch envTwoRecords
      [⟨"100", "TestRecord A"⟩, ⟨"200", "TestRecord B"⟩]
      rfl (by decide) (fun c _ => ⟨rfl, ⟨"A" ++ c.id, rfl⟩⟩)).2.1

/-- C2: for a fetch result of zero rows, the fetch returns the empty list (the
embedding's return type rules out null), and `run()` resolves with exactly one
log line, `No Unused Records`, and zero deletes, audits and events. -/
theorem spec_c2_zero_rows (env : Env) (hfetch : env.fetchResult = Except.ok []) :
    fetchUnusedRecords env Trace.empty = (Except.ok [], Trace.empty) ∧
    execute env = (Except.ok (), ⟨[logNoRecordsFound], [], [], []⟩) :=
  ⟨fetchUnusedRecords_ok hfetch _, execute_noRecords hfetch⟩

/-- Witness for C2 at the zero-row scenario. -/
theorem spec_c2_witness :
    execute envNoRecords = (Except.ok (), ⟨[logNoRecordsFound], [], [], []⟩) :=
  (spec_c2_zero_rows envNoRecords rfl).2

/-- C3: for every query rejection, `run()` rejects with the same message
unchanged, and the trace is exactly one error-level log line — titled with
the localized `query_error` message when the lookup yields one, else the
fixed fallback `Error fetching unused records.` (that is `jsOr`) — and zero
deletes, audits and events. -/
theorem spec_c3_query_failure (env : Env) (msg : String)
    (hfetch : env.fetchResult = Except.error msg) :
    execute env =
      (Except.error msg,
        ⟨[⟨LogLevel.error,
            jsOr (env.translation ("query_error")) "Error fetching unused records.", msg⟩],
         [], [], []⟩) := by
  simp [execute, cleanupUnusedRecords, fetchUnusedRecords, hfetch, Trace.empty]

/-- Witness for C3 at the `Query failed` scenario with absent localization. -/
theorem spec_c3_witness :
    execute envQueryFail =
      (Except.error ("Query failed"),
        ⟨[⟨LogLevel.error, "Error fetching unused records.", "Query failed"⟩],
         [], [], []⟩) :=
  spec_c3_query_failure envQueryFail ("Query failed") rfl

/-- C4: for every run whose single candidate's delete rejects (localization
absent), `run()` rejects with the same message, the trace is exactly one
error-level log titled `Error deleting record.`, and zero deletes, audits and
events are committed — in particular no completion summary is logged. -/
theorem spec_c4_delete_failure (env : Env) (c : Candidate) (msg : String)
    (hfetch : env.fetchResult = Except.ok [c])
    (hdel : env.deleteOutcome c = some msg)
    (htrans : env.translation ("delete_error") = none) :
    execute env =
      (Except.error msg,
        ⟨[⟨LogLevel.error, "Error deleting record.", msg⟩], [], [], []⟩) := by
  simp [execute, cleanupUnusedRecords, fetchUnusedRecords_ok hfetch, cleanupLoop,
    hasDependencies, deleteRecord, hdel, jsOr, htrans, Trace.empty]

/-- Witness for C4 at the spec's `{id: 300, name: TestRecord C}` scenario. -/
theorem spec_c4_witness :
    execute envDeleteFail =
      (Except.error ("Delete failed"),
        ⟨[⟨LogLevel.error, "Error deleting record.", "Delete failed"⟩], [], [], []⟩) :=
  spec_c4_delete_failure envDeleteFail ⟨"300", "TestRecord C"⟩ "Delete failed" rfl rfl rfl

/-- C5: for every run whose single candidate's delete succeeds but whose audit
creation rejects (localization absent), `run()` rejects with the same message,
the trace is exactly the `Record Deleted` audit log followed by one
error-level log titled `Error creating audit record.`, the delete is already
committed (`deletes = [c.id]`, never rolled back), and no audit row exists. -/
theorem spec_c5_audit_failure (env : Env) (c : Candidate) (msg : String)
    (hfetch : env.fetchResult = Except.ok [c])
    (hdel : env.deleteOutcome c = none)
    (haud : env.auditOutcome c = Except.error msg)
    (htrans : env.translation ("audit_error") = none) :
    execute env =
      (Except.error msg,
        ⟨[recordDeletedLog c, ⟨LogLevel.error, "Error creating audit record.", msg⟩],
         [c.id], [], [Event.deleteOk c.id, Event.auditStart c.id]⟩) := by
  simp [execute, cleanupUnusedRecords, fetchUnusedRecords_ok hfetch, cleanupLoop,
    hasDependencies, deleteRecord, hdel, createAuditRecord, haud, jsOr, htrans,
    Trace.empty, recordDeletedLog]

/-- Witness for C5 at the spec's `{id: 400, name: TestRecord D}` scenario. -/
theorem spec_c5_witness :
    execute envAuditFail =
      (Except.error ("Create audit record failed"),
        ⟨[recordDeletedLog ⟨"400", "TestRecord D"⟩,
          ⟨LogLevel.error, "Error creating audit record.", "Create audit record failed"⟩],
         ["400"], [], [Event.deleteOk ("400"), Event.auditStart ("400")]⟩) :=
  spec_c5_audit_failure envAuditFail ⟨"400", "TestRecord D"⟩
    "Create audit record failed" rfl rfl rfl rfl

theorem cleanupLoop_cons_ok {env : Env} {c : Candidate} {s : String}
    (hdel : env.deleteOutcome c = none)
    (haud : env.auditOutcome c = Except.ok s)
    (rest : List Candidate) (n : Nat) (tr : Trace) :
    cleanupLoop env (c :: rest) n tr =
      cleanupLoop env rest (n + 1) (successStep env c tr) := by
  simp [cleanupLoop, hasDependencies, deleteRecord, hdel, createAuditRecord, haud,
    successStep, successLogs, recordDeletedLog, auditCreatedLog, auditRowOf, savedIdOf,
    auditFields, eventBlock]

/-- C7: the eligibility check is the constant `false` ("no dependencies"), so
every fetched candidate is eligible and the skip branch of the orchestration
loop is never taken: the loop agrees everywhere with `cleanupLoopNoSkip`, the
same loop with the skip branch removed. -/
theorem spec_c7_stub_eligibility :
    (∀ c : Candidate, hasDependencies c = false) ∧
    ∀ (env : Env) (cs : List Candidate) (n : Nat) (tr : Trace),
      cleanupLoop env cs n tr = cleanupLoopNoSkip env cs n tr := by
  refine ⟨fun _ => rfl, ?_⟩
  intro env cs
  induction cs with
  | nil => intro n tr; rfl
  | cons c rest ih =>
      intro n tr
      rcases hdr : deleteRecord env c tr with ⟨r, tr1⟩
      cases r with
      | error msg => simp [cleanupLoop, cleanupLoopNoSkip, hasDependencies, hdr]
      | ok u =>
          rcases hca : createAuditRecord env c tr1 with ⟨r2, tr2⟩
          cases r2 with
          | error msg => simp [cleanupLoop, cleanupLoopNoSkip, hasDependencies, hdr, hca]
          | ok u2 => simp [cleanupLoop, cleanupLoopNoSkip, hasDependencies, hdr, hca, ih]

/-- C9: whenever the audit-creation sequence for a deleted record succeeds,
`createAuditRecord` commits exactly one new audit row, whose fields are
exactly the deleted record's id and name (in the order the two `setValue`
calls set them), and logs exactly one audit-level line whose details name
both the saved audit row's id and the deleted record's id. -/
theorem spec_c9_audit_creation (env : Env) (rd : Candidate) (sid : String) (tr : Trace)
    (h : env.auditOutcome rd = Except.ok sid) :
    createAuditRecord env rd tr =
      (Except.ok (),
        { tr with
            events := tr.events ++ [Event.auditStart rd.id]
            audits := tr.audits ++ [⟨sid, auditFields rd⟩]
            logs := tr.logs ++
              [⟨LogLevel.audit, "Audit Record Created",
                "Audit Record ID: " ++ sid ++ ", Deleted Record ID: " ++ rd.id⟩] }) ∧
    (createAuditRecord env rd tr).2.audits.length = tr.audits.length + 1 := by
  constructor
  · simp [createAuditRecord, h, auditFields]
  · simp [createAuditRecord, h]

/-- Witness for C9: candidate `100`'s audit creation in the two-record
scenario commits exactly one row. -/
theorem spec_c9_witness :
    (createAuditRecord envTwoRecords ⟨"100", "TestRecord A"⟩ Trace.empty).2.audits.length
      = 0 + 1 :=
  (spec_c9_audit_creation envTwoRecords ⟨"100", "TestRecord A"⟩ "A100" Trace.empty rfl).2

theorem cleanupLoop_first_fail {env : Env} :
    ∀ (cs : List Candidate) (k : Nat) (hk : k < cs.length),
      (∀ c ∈ cs.take k, candidateOk env c) →
      ¬ candidateOk env cs[k] →
      ∀ (n : Nat) (tr : Trace),
      ∃ msg n2 tr2,
        cleanupLoop env cs n tr = (Except.error msg, n2, tr2) ∧
        tr2.audits = tr.audits ++ (cs.take k).map (auditRowOf env) ∧
        (tr2.deletes = tr.deletes ++ (cs.take k).map (fun c => c.id) ∨
         tr2.deletes = tr.deletes ++ (cs.take (k+1)).map (fun c => c.id)) ∧
        (∀ l ∈ tr2.logs, l ∈ tr.logs ∨ l.level = LogLevel.error ∨
          l.title = "Record Deleted" ∨ l.title = "Audit Record Created") := by
  intro cs
  induction cs with
  | nil => intro k hk; exact absurd hk (by simp)
  | cons c rest ih =>
      intro k hk hpre hfail n tr
      cases k with
      | zero =>
          have hfc : ¬ candidateOk env c := by simpa using hfail
          cases hdel : env.deleteOutcome c with
          | some m =>
              refine ⟨m, n,
                { tr with logs := tr.logs ++
                    [⟨LogLevel.error,
                      jsOr (env.translation ("delete_error")) "Error deleting record.", m⟩] },
                ?_, ?_, ?_, ?_⟩
              · simp [cleanupLoop, hasDependencies, deleteRecord, hdel]
              · simp
              · left; simp
              · intro l hl
                rcases List.mem_append.mp hl with h | h
                · exact Or.inl h
                · simp only [List.mem_singleton] at h
                  subst h
                  exact Or.inr (Or.inl rfl)
          | none =>
              cases haud : env.auditOutcome c with
              | ok s => exact absurd ⟨hdel, s, haud⟩ hfc
              | error m =>
                  refine ⟨m, n + 1,
                    { tr with
                        logs := tr.logs ++
                          [⟨LogLevel.audit, "Record Deleted", "Record ID: " ++ c.id⟩,
                           ⟨LogLevel.error,
                             jsOr (env.translation ("audit_error")) "Error creating audit record.",
                             m⟩]
                        deletes := tr.deletes ++ [c.id]
                        events := tr.events ++ [Event.deleteOk c.id, Event.auditStart c.id] },
                    ?_, ?_, ?_, ?_⟩
                  · simp [cleanupLoop, hasDependencies, deleteRecord, hdel,
                      createAuditRecord, haud]
                  · simp
                  · right; simp
                  · intro l hl
                    rcases List.mem_append.mp hl with h | h
                    · exact Or.inl h
                    · rcases List.mem_cons.mp h with h1 | h1
                      · subst h1; exact Or.inr (Or.inr (Or.inl rfl))
                      · simp only [List.mem_singleton] at h1
                        subst h1
                        exact Or.inr (Or.inl rfl)
      | succ k1 =>
          obtain ⟨hdel, s, haud⟩ : candidateOk env c := hpre c (by simp)
          have hk1 : k1 < rest.length := by simpa using hk
          have hpre1 : ∀ x ∈ rest.take k1, candidateOk env x := fun x hx =>
            hpre x (by simp [hx])
          have hfail1 : ¬ candidateOk env rest[k1] := by simpa using hfail
          obtain ⟨m, n2, tr2, heq, hau, hde, hlo⟩ :=
            ih k1 hk1 hpre1 hfail1 (n + 1) (successStep env c tr)
          refine ⟨m, n2, tr2, ?_, ?_, ?_, ?_⟩
          · rw [cleanupLoop_cons_ok hdel haud, heq]
          · rw [hau]
            simp [successStep, List.append_assoc]
          · rcases hde with h | h
            · left
              rw [h]
              simp [successStep, List.append_assoc]
            · right
              rw [h]
              simp [successStep, List.append_assoc]
          · intro l hl
            rcases hlo l hl with h | h
            · have h2 : l ∈ tr.logs ++ successLogs env c := by simpa [successStep] using h
              rcases List.mem_append.mp h2 with h1 | h1
              · exact Or.inl h1
              · rcases List.mem_cons.mp h1 with h3 | h3
                · subst h3; exact Or.inr (Or.inr (Or.inl rfl))
                · simp only [successLogs, List.mem_singleton] at h3
                  subst h3
                  exact Or.inr (Or.inr (Or.inr rfl))
            · exact Or.inr h

/-- C6: whenever the first failing candidate of a run is the one at position
`k` (every earlier candidate's remote calls succeed and candidate `k`'s
delete or audit creation rejects), `run()` rejects, no audit-level
`Unused Record Cleanup Complete` summary is ever logged, the audit rows
committed are exactly those of the candidates before `k`, and the committed
deletes are exactly those of the candidates before `k`, possibly together
with candidate `k`'s own (fail-fast: nothing after position `k` is processed
and nothing already committed is rolled back). -/
theorem spec_c6_fail_fast (env : Env) (cs : List Candidate) (k : Nat)
    (hk : k < cs.length)
    (hfetch : env.fetchResult = Except.ok cs)
    (hpre : ∀ c ∈ cs.take k, candidateOk env c)
    (hfail : ¬ candidateOk env cs[k]) :
    (∃ msg, (execute env).1 = Except.error msg) ∧
    (∀ l ∈ (execute env).2.logs,
      ¬ (l.level = LogLevel.audit ∧ l.title = "Unused Record Cleanup Complete")) ∧
    (execute env).2.audits = (cs.take k).map (auditRowOf env) ∧
    ((execute env).2.deletes = (cs.take k).map (fun c => c.id) ∨
     (execute env).2.deletes = (cs.take (k+1)).map (fun c => c.id)) := by
  have hlen : ¬ cs.length = 0 := by omega
  obtain ⟨m, n2, tr2, heq, hau, hde, hlo⟩ :=
    cleanupLoop_first_fail cs k hk hpre hfail 0 Trace.empty
  have hex : execute env = (Except.error m, tr2) := by
    simp only [execute, cleanupUnusedRecords, fetchUnusedRecords_ok hfetch, if_neg hlen, heq]
  rw [hex]
  refine ⟨⟨m, rfl⟩, ?_, ?_, ?_⟩
  · intro l hl
    rcases hlo l hl with h | h | h | h
    · simp [Trace.empty] at h
    · intro hc
      rw [hc.1] at h
      exact absurd h (by simp)
    · intro hc
      rw [hc.2] at h
      exact absurd h (by decide)
    · intro hc
      rw [hc.2] at h
      exact absurd h (by decide)
  · simpa [Trace.empty] using hau
  · simpa [Trace.empty] using hde

/-- Witness for C6: in the mixed scenario the first failure is at position 1
(candidate `300`'s delete), so only candidate `100`'s audit row exists. -/
theorem spec_c6_witness :
    (execute envMixedFail).2.audits =
      (([⟨"100", "TestRecord A"⟩, ⟨"300", "TestRecord C"⟩] : List Candidate).take 1).map
        (auditRowOf envMixedFail) :=
  (spec_c6_fail_fast envMixedFail [⟨"100", "TestRecord A"⟩, ⟨"300", "TestRecord C"⟩] 1
      (by decide) rfl
      (by
        intro c hc
        simp only [List.take_succ_cons, List.take_zero, List.mem_singleton] at hc
        subst hc
        exact ⟨by decide, ⟨"A100", rfl⟩⟩)
      (by
        intro h
        have := h.1
        simp [envMixedFail] at this)).2.2.1

theorem execute_storeEnv (s : Store) :
    (execute (storeEnv s)).1 = Except.ok () ∧
    (execute (storeEnv s)).2.deletes = (queryUnused s).map (fun c => c.id) := by
  by_cases h : queryUnused s = []
  · have he := @execute_noRecords (storeEnv s) (by simp [storeEnv, h])
    rw [he, h]
    simp
  · have he := @execute_all_ok (storeEnv s) (queryUnused s) rfl h
      (fun c _ => ⟨rfl, ⟨"A" ++ c.id, rfl⟩⟩)
    rw [he]
    exact ⟨rfl, rfl⟩

/-- C8: over the claim's model of the external store — the fetch returns
exactly the candidate rows not referenced by the referencing table, and a
successful run removes every fetched row and appends its audit rows — every
first run succeeds, the store it leaves contains no unused rows, and a
second consecutive run therefore takes the zero-row path: it resolves with
exactly the one `No Unused Records` log line and performs no deletes and no
audit creations. -/
theorem spec_c8_second_run_empty (s : Store) :
    (runOnStore s).2.1 = Except.ok () ∧
    queryUnused (runOnStore s).1 = [] ∧
    (runOnStore ((runOnStore s).1)).2 =
      (Except.ok (), ⟨[logNoRecordsFound], [], [], []⟩) := by
  obtain ⟨hok, hdel⟩ := execute_storeEnv s
  have h1 : (runOnStore s).2.1 = Except.ok () := by simpa [runOnStore] using hok
  have hct : (runOnStore s).1.candidateTable =
      s.candidateTable.filter
        (fun r => !(decide (r.id ∈ (queryUnused s).map (fun c => c.id)))) := by
    simp [runOnStore, hdel]
  have hrefs : (runOnStore s).1.referencingRefs = s.referencingRefs := by
    simp [runOnStore]
  have h2 : queryUnused (runOnStore s).1 = [] := by
    rw [queryUnused, hct, hrefs, List.filter_eq_nil_iff]
    intro r hr
    rcases List.mem_filter.mp hr with ⟨hrt, hrp⟩
    simp only [Bool.not_eq_true', decide_eq_false_iff_not] at hrp
    simp only [Bool.not_eq_true', decide_eq_false_iff_not, Decidable.not_not]
    by_contra hnot
    exact hrp (List.mem_map.mpr ⟨r, List.mem_filter.mpr ⟨hrt, by simp [hnot]⟩, rfl⟩)
  have h3 : (runOnStore ((runOnStore s).1)).2 =
      (Except.ok (), (⟨[logNoRecordsFound], [], [], []⟩ : Trace)) := by
    have he := @execute_noRecords (storeEnv (runOnStore s).1) (by simp [storeEnv, h2])
    simpa [runOnStore] using he
  exact ⟨h1, h2, h3⟩

theorem cleanupLoop_events_shape {env : Env} (cs : List Candidate) (n : Nat) (tr : Trace) :
    ∃ l : List Candidate,
      (cleanupLoop env cs n tr).2.2.events = tr.events ++ l.flatMap eventBlock := by
  induction cs generalizing n tr with
  | nil => exact ⟨[], by simp [cleanupLoop]⟩
  | cons c rest ih =>
      cases hdel : env.deleteOutcome c with
      | some m =>
          exact ⟨[], by simp [cleanupLoop, hasDependencies, deleteRecord, hdel]⟩
      | none =>
          cases haud : env.auditOutcome c with
          | error m =>
              exact ⟨[c], by simp [cleanupLoop, hasDependencies, deleteRecord, hdel,
                createAuditRecord, haud, eventBlock]⟩
          | ok s =>
              obtain ⟨l, hl⟩ := ih (n + 1) (successStep env c tr)
              refine ⟨c :: l, ?_⟩
              rw [cleanupLoop_cons_ok hdel haud, hl]
              simp [successStep, eventBlock]

theorem execute_events_shape (env : Env) :
    ∃ l : List Candidate, (execute env).2.events = l.flatMap eventBlock := by
  cases hf : env.fetchResult with
  | error m =>
      exact ⟨[], by simp [execute, cleanupUnusedRecords, fetchUnusedRecords, hf, Trace.empty]⟩
  | ok rows =>
      by_cases h0 : rows.length = 0
      · exact ⟨[], by simp [execute, cleanupUnusedRecords, fetchUnusedRecords_ok hf, h0,
          Trace.empty]⟩
      · obtain ⟨l, hl⟩ := @cleanupLoop_events_shape env rows 0 Trace.empty
        refine ⟨l, ?_⟩
        simp only [execute, cleanupUnusedRecords, fetchUnusedRecords_ok hf, if_neg h0]
        rcases hres : cleanupLoop env rows 0 Trace.empty with ⟨r, n2, tr2⟩
        rw [hres] at hl
        cases r with
        | error msg => simpa [Trace.empty] using hl
        | ok u => simpa [Trace.empty] using hl

theorem eventBlockCounts :
    ∀ (l : List Candidate) (p : List Event), p <+: l.flatMap eventBlock →
      startedAudits p ≤ okDeletes p ∧ okDeletes p ≤ startedAudits p + 1 := by
  intro l
  induction l with
  | nil =>
      intro p hp
      have hp0 : p = [] := List.eq_nil_of_prefix_nil (by simpa using hp)
      subst hp0
      simp [startedAudits, okDeletes]
  | cons c rest ih =>
      intro p hp
      simp only [List.flatMap_cons, eventBlock, List.cons_append, List.nil_append] at hp
      cases p with
      | nil => simp [startedAudits, okDeletes]
      | cons e p1 =>
          rw [List.cons_prefix_cons] at hp
          obtain ⟨rfl, hp1⟩ := hp
          cases p1 with
          | nil => simp [startedAudits, okDeletes, isDeleteOkEvent, isAuditStartEvent]
          | cons e2 p2 =>
              rw [List.cons_prefix_cons] at hp1
              obtain ⟨rfl, hp2⟩ := hp1
              have hih := ih p2 hp2
              simp only [startedAudits, okDeletes, List.countP_cons, isDeleteOkEvent,
                isAuditStartEvent] at hih ⊢
              omega

theorem eventBlockAuditPreceded :
    ∀ (l : List Candidate) (p : List Event) (i : String),
      (p ++ [Event.auditStart i]) <+: l.flatMap eventBlock →
      Event.deleteOk i ∈ p := by
  intro l
  induction l with
  | nil =>
      intro p i hp
      have h0 : p ++ [Event.auditStart i] = [] :=
        List.eq_nil_of_prefix_nil (by simp only [List.flatMap_nil] at hp; exact hp)
      simp at h0
  | cons c rest ih =>
      intro p i hp
      simp only [List.flatMap_cons, eventBlock, List.cons_append, List.nil_append] at hp
      cases p with
      | nil =>
          rw [List.nil_append, List.cons_prefix_cons] at hp
          exact absurd hp.1 (by simp)
      | cons e p1 =>
          rw [List.cons_append, List.cons_prefix_cons] at hp
          obtain ⟨rfl, hp1⟩ := hp
          cases p1 with
          | nil =>
              rw [List.nil_append, List.cons_prefix_cons] at hp1
              have h2 : i = c.id := by simpa using hp1.1
              subst h2
              simp
          | cons e2 p2 =>
              rw [List.cons_append, List.cons_prefix_cons] at hp1
              obtain ⟨rfl, hp2⟩ := hp1
              have hmem := ih p2 i hp2
              simp [hmem]

/-- C10: at every intermediate point of any run (every prefix of the run's
event sequence), the number of audit creations started is at most the number
of successful deletes and at least that number minus one, and every started
audit creation is preceded by the successful delete of the same candidate:
an audit record is never created for a record whose delete has not already
succeeded, and each successful delete is followed by at most one audit
creation before the next candidate is touched. -/
theorem spec_c10_audit_delete_invariant (env : Env) :
    (∀ p, p <+: (execute env).2.events →
        startedAudits p ≤ okDeletes p ∧ okDeletes p ≤ startedAudits p + 1) ∧
    (∀ p i, (p ++ [Event.auditStart i]) <+: (execute env).2.events →
        Event.deleteOk i ∈ p) := by
  obtain ⟨l, hl⟩ := execute_events_shape env
  rw [hl]
  exact ⟨fun p hp => eventBlockCounts l p hp, fun p i hp => eventBlockAuditPreceded l p i hp⟩

/-- Witness for C10: the intermediate point of the two-record run right after
candidate `100`'s delete has succeeded but before its audit creation starts
satisfies the invariant. -/
theorem spec_c10_witness :
    startedAudits [Event.deleteOk ("100")] ≤ okDeletes [Event.deleteOk ("100")] ∧
    okDeletes [Event.deleteOk ("100")] ≤ startedAudits [Event.deleteOk ("100")] + 1 :=
  (spec_c10_audit_delete_invariant envTwoRecords).1 [Event.deleteOk ("100")]
    ⟨[Event.auditStart ("100"), Event.deleteOk ("200"), Event.auditStart ("200")], rfl⟩

end UnusedRecordCleaner
